import Mathlib

/-!
Verification of the legal-AI backend core: the Researcher retrieval pipeline
(BM25 lexical ranking, vector retrieval, rank fusion, cross-encoder reranking)
and the Interrogator bounded-turn state machine.  Each Python function of the
source is embedded as an executable Lean definition; external ML models
(embedding similarity, rerankers, BM25 scoring backends) appear as oracle
parameters, so theorems quantify over every possible model behaviour.
-/

/- ## Python-semantics helpers -/

/-- Boolean test that one character list is a leading segment of another.
Mirrors the character-by-character comparison used for substring search. -/
def leadsChars : List Char → List Char → Bool
  | [], _ => true
  | _ :: _, [] => false
  | a :: as, b :: bs => a == b && leadsChars as bs

/-- Boolean substring search over character lists: true when the first
argument occurs contiguously inside the second. -/
def subChars (needle : List Char) : List Char → Bool
  | [] => needle.isEmpty
  | b :: bs => leadsChars needle (b :: bs) || subChars needle bs

/-- Embedding of the Python expression (needle in hay) on strings:
substring containment. -/
def pyIn (needle hay : String) : Bool :=
  subChars needle.data hay.data

/-- Embedding of the Python int() conversion applied to an exact rational:
truncation toward zero. -/
def pyInt (q : ℚ) : ℤ :=
  if q < 0 then ⌈q⌉ else ⌊q⌋

/-- Stable insertion into a list kept in descending key order: the new
element is placed before the first strictly-smaller-or-equal position it
dominates, i.e. before the first element whose key it is ge than. -/
def insertDesc (key : α → ℚ) (x : α) : List α → List α
  | [] => [x]
  | y :: ys => if key y ≤ key x then x :: y :: ys else y :: insertDesc key x ys

/-- Stable descending sort by a rational key.  This embeds the Python calls
sorted(..., key=score, reverse=True) and the descending selection
np.argsort(scores)[::-1]; Python sorting is stable, and this insertion sort
keeps earlier elements first among equal keys. -/
def sortDesc (key : α → ℚ) : List α → List α
  | [] => []
  | x :: xs => insertDesc key x (sortDesc key xs)

theorem insertDesc_perm (key : α → ℚ) (x : α) (l : List α) :
    List.Perm (insertDesc key x l) (x :: l) := by
  induction l with
  | nil => simp [insertDesc]
  | cons y ys ih =>
      by_cases h : key y ≤ key x
      · simp [insertDesc, h]
      · simp only [insertDesc, if_neg h]
        exact List.Perm.trans (List.Perm.cons y ih) (List.Perm.swap x y ys)

theorem sortDesc_perm (key : α → ℚ) (l : List α) :
    List.Perm (sortDesc key l) l := by
  induction l with
  | nil => simp [sortDesc]
  | cons x xs ih =>
      exact List.Perm.trans (insertDesc_perm key x (sortDesc key xs))
        (List.Perm.cons x ih)

theorem mem_sortDesc {key : α → ℚ} {l : List α} {x : α} :
    x ∈ sortDesc key l ↔ x ∈ l :=
  (sortDesc_perm key l).mem_iff

theorem insertDesc_sorted (key : α → ℚ) (x : α) (l : List α)
    (h : List.Pairwise (fun a b => key b ≤ key a) l) :
    List.Pairwise (fun a b => key b ≤ key a) (insertDesc key x l) := by
  induction l with
  | nil => simp [insertDesc]
  | cons y ys ih =>
      rcases List.pairwise_cons.mp h with ⟨hy, hys⟩
      by_cases hxy : key y ≤ key x
      · simp only [insertDesc, if_pos hxy]
        refine List.pairwise_cons.mpr ⟨?_, h⟩
        intro b hb
        rcases List.mem_cons.mp hb with rfl | hb
        · exact hxy
        · exact le_trans (hy b hb) hxy
      · simp only [insertDesc, if_neg hxy]
        refine List.pairwise_cons.mpr ⟨?_, ih hys⟩
        intro b hb
        have hb := (insertDesc_perm key x ys).mem_iff.mp hb
        rcases List.mem_cons.mp hb with rfl | hb
        · exact le_of_not_le hxy
        · exact hy b hb

theorem sortDesc_sorted (key : α → ℚ) (l : List α) :
    List.Pairwise (fun a b => key b ≤ key a) (sortDesc key l) := by
  induction l with
  | nil => simp [sortDesc]
  | cons x xs ih => exact insertDesc_sorted key x (sortDesc key xs) ih

theorem sortDesc_eq_self (key : α → ℚ) (l : List α)
    (h : List.Pairwise (fun a b => key b ≤ key a) l) :
    sortDesc key l = l := by
  induction l with
  | nil => rfl
  | cons x xs ih =>
      rcases List.pairwise_cons.mp h with ⟨hx, hxs⟩
      have hrec : sortDesc key (x :: xs) = insertDesc key x (sortDesc key xs) := rfl
      rw [hrec, ih hxs]
      cases xs with
      | nil => rfl
      | cons y ys => simp [insertDesc, hx y (List.mem_cons_self y ys)]

/- ## Researcher: documents and the reranking node (graph/nodes/reranking.py) -/

/-- A LangChain document as the Researcher uses it: the page content plus the
one metadata field the reranking node writes (metadata of other provenance
fields is not consulted by the verified code paths). -/
structure Doc where
  page_content : String
  reranker_score : Option ℚ
deriving DecidableEq, Repr

/-- The literal marker that distinguishes original spans from synthetic
ancestor/descendant context wrappers, from reranking.py. -/
def ORIGINAL_SPAN_MARKER : String := "--- ORIGINAL SPAN OF THE DOCUMENT ---"

/-- Truthiness of the configured reranker similarity threshold, embedding the
Python guard (if similarity_threshold and ...): None and 0 are falsy. -/
def thresholdTruthy : Option ℚ → Bool
  | none => false
  | some t => decide (t ≠ 0)

/-- Keep-condition of the score filter loop in rerank: a document is skipped
exactly when the threshold is truthy and its score is strictly below it. -/
def rerankKeep (similarity_threshold : Option ℚ) (score : ℚ) : Bool :=
  !(thresholdTruthy similarity_threshold && decide (score < similarity_threshold.getD 0))

/-- Embedding of rerank from Researcher/graph/nodes/reranking.py.  The
pairwise relevance model (CrossEncoder / FlagReranker / LLM reranker) is the
oracle parameter scorer, giving one score per (query, page content) pair; the
configuration values are parameters.  Steps, as in the source: empty input
returns an empty context; with the reranker disabled the fused list is passed
through truncated to top k; otherwise documents lacking the original-span
marker are dropped (returning an explicit empty result if none survive), the
survivors are scored, sorted by descending score, filtered by the truthy
threshold, given their score in metadata, and truncated to top k. -/
def rerank (top_k : Nat) (similarity_threshold : Option ℚ) (use_reranker : Bool)
    (scorer : String → String → ℚ) (query : String)
    (retrievedDocuments : List Doc) : List Doc :=
  if retrievedDocuments.isEmpty then []
  else if !use_reranker then retrievedDocuments.take top_k
  else
    let filtered := retrievedDocuments.filter
      (fun doc => pyIn ORIGINAL_SPAN_MARKER doc.page_content)
    if filtered.isEmpty then []
    else
      let reranked := sortDesc (fun p => p.2)
        (filtered.map (fun doc => (doc, scorer query doc.page_content)))
      let final_docs := (reranked.filter
          (fun p => rerankKeep similarity_threshold p.2)).map
        (fun p => { p.1 with reranker_score := some p.2 })
      final_docs.take top_k

/- ## Researcher: BM25 retriever (retrievers/bm25.py) -/

/-- The effective k of retrieve_with_scores: the Python line k = k or
self.top_k maps both None and a falsy 0 to the configured top k. -/
def bm25EffectiveK (kArg : Option Nat) (top_k : Nat) : Nat :=
  match kArg with
  | none => top_k
  | some 0 => top_k
  | some m => m

/-- Embedding of BM25RetrieverWrapper.retrieve_with_scores from
retrievers/bm25.py.  The scores array produced by bm25.get_scores on the
tokenized query (after the optional sigmoid squashing, which preserves order)
is the oracle parameter scores, one entry per corpus document.  The slicing
np.argsort(scores)[-k:][::-1] selects the k highest-scoring documents in
descending order, embedded as a stable descending sort followed by take k;
for k = 0 the Python slice [-0:] degenerates to the whole array, so every
document is kept.  Documents are then filtered to scores strictly above the
similarity threshold. -/
def retrieve_with_scores (documents : List Doc) (scores : List ℚ)
    (kArg : Option Nat) (top_k : Nat) (similarity_threshold : ℚ) :
    List (Doc × ℚ) :=
  let k := bm25EffectiveK kArg top_k
  let ranked := sortDesc (fun p => p.2) (documents.zip scores)
  let top := if k = 0 then ranked else ranked.take k
  top.filter (fun p => decide (similarity_threshold < p.2))

/-- Stated from the words of the spec, for comparison with the
implementation: drop documents scoring at or below the threshold first, then
truncate the descending ranking to at most top k entries. -/
def specFilterThenTruncate (documents : List Doc) (scores : List ℚ)
    (k : Nat) (similarity_threshold : ℚ) : List (Doc × ℚ) :=
  (((sortDesc (fun p => p.2) (documents.zip scores)).filter
    (fun p => decide (similarity_threshold < p.2))).take k)

/- ## Researcher: vector retrieval and hybrid rank fusion (retrievers/) -/

/-- Embedding of VectorDBRetriever.retrieve from retrievers/vectordb.py.  The
vector store call similarity_search_with_relevance_scores is the oracle
parameter backend: either scored candidates or a raised exception.  Scores at
or below the similarity threshold are skipped; any exception anywhere in the
body is caught, logged, and turned into an empty result. -/
def vectordb_retrieve (similarity_threshold : ℚ)
    (backend : Except String (List (Doc × ℚ))) : List Doc :=
  match backend with
  | Except.error _ => []
  | Except.ok results =>
      (results.filter (fun p => !decide (p.2 ≤ similarity_threshold))).map
        (fun p => p.1)

/-- Modelled from the spec: the rank-fusion combiner (the LangChain
EnsembleRetriever used by HybridRetriever.retrieve) is external to the
repository sources, so its weighted reciprocal-rank fusion is modelled after
the fusion stage the spec prescribes: each document receives, from each
input list, its weight divided by (rank + 60) with ranks starting at one, a
document absent from a list contributing zero from that list; contributions
are summed across lists and across duplicate occurrences. -/
def rrfContribFrom (weight : ℚ) (rank : Nat) (content : String) :
    List Doc → ℚ
  | [] => 0
  | d :: ds =>
      (if d.page_content = content then weight / ((rank : ℚ) + 60) else 0) +
        rrfContribFrom weight (rank + 1) content ds

/-- Deduplication by page content keeping the first occurrence, as the
fusion stage performs before resorting; the accumulator is the set of page
contents already seen. -/
def uniqueByContent (seen : List String) : List Doc → List Doc
  | [] => []
  | d :: ds =>
      if d.page_content ∈ seen then uniqueByContent seen ds
      else d :: uniqueByContent (d.page_content :: seen) ds

/-- Modelled from the spec: the whole fusion stage.  All candidates of both
lists are deduplicated by content identity and stably resorted in descending
order of fused score, ties keeping the earliest position across the
concatenated inputs. -/
def weightedRankFusion (weightA weightB : ℚ) (listA listB : List Doc) :
    List Doc :=
  sortDesc
    (fun d =>
      rrfContribFrom weightA 1 d.page_content listA +
        rrfContribFrom weightB 1 d.page_content listB)
    (uniqueByContent [] (listA ++ listB))

/-- Embedding of HybridRetriever.retrieve from retrievers/hybrid.py: the BM25
list and the vector list are fused by the ensemble combiner and the fused
ranking is truncated to the hybrid top k.  A semantic-ranker failure is
already absorbed inside vectordb_retrieve, which hands an empty list to the
fusion.  The in-place provenance tag written into each returned document
metadata is elided, as the Doc model keeps only the reranker score field. -/
def hybrid_retrieve (bm25_weight vector_weight : ℚ) (top_k : Nat)
    (bm25_documents : List Doc) (vector_similarity_threshold : ℚ)
    (vector_backend : Except String (List (Doc × ℚ))) : List Doc :=
  let vector_documents := vectordb_retrieve vector_similarity_threshold vector_backend
  (weightedRankFusion bm25_weight vector_weight bm25_documents vector_documents).take top_k

/- ## Interrogator: termination detection (models/bert.py, graph/nodes/router.py) -/

/-- The canonical termination phrase route_interrogation looks for. -/
def canonicalPhrase : String :=
  "Thank you, I am now in a position to answer the question with confidence."

/-- Embedding of similarity_check from Interrogator/models/bert.py: the
sentence-transformer cosine similarity of the two texts is the oracle
parameter cosSim; the check holds when it meets or exceeds the threshold. -/
def similarity_check (cosSim : String → String → ℚ) (text1 text2 : String)
    (threshold : ℚ) : Bool :=
  decide (threshold ≤ cosSim text1 text2)

/-- Embedding of route_interrogation from Interrogator/graph/nodes/router.py.
Messages are their content strings.  If the answered-turn count, half the
message count, has reached max_num_turns the route is save_interrogation;
otherwise the last message is inspected (none models the Python IndexError on
an empty list): the canonical phrase as a substring, or a similarity-check
hit at the default threshold 0.9, also routes to save_interrogation, and
otherwise the route is get_answer. -/
def route_interrogation (cosSim : String → String → ℚ)
    (messages : List String) (max_num_turns : Nat) : Option String :=
  if max_num_turns ≤ messages.length / 2 then some "save_interrogation"
  else
    match messages.getLast? with
    | none => none
    | some last_question =>
        if pyIn canonicalPhrase last_question ||
            similarity_check cosSim last_question canonicalPhrase (9 / 10) then
          some "save_interrogation"
        else some "get_answer"

/- ## Interrogator: question generation (graph/nodes/generate_question.py) -/

/-- The three prompt modes generate_question can select: the first-question
prompts, the regular follow-up prompts, and the final wrap-up prompts. -/
inductive QMode where
  | firstQuestion
  | followUp
  | finalQuestion
deriving DecidableEq, Repr

/-- Python truthiness of the report field: the key must be present and the
string non-empty. -/
def reportTruthy : Option String → Bool
  | none => false
  | some r => !r.isEmpty

/-- Embedding of the expression int(max_num_turns - len(messages) / 2) of
generate_question.py, with exact arithmetic and int() truncation. -/
def remaining_questions (max_num_turns : Nat) (messagesLen : Nat) : ℤ :=
  pyInt ((max_num_turns : ℚ) - (messagesLen : ℚ) / 2)

/-- Embedding of the prompt-mode selection of generate_question from
Interrogator/graph/nodes/generate_question.py: with a truthy report and zero
remaining questions the final wrap-up prompts are used (the node also labels
the model call write_conclusion there); with a truthy report otherwise the
follow-up prompts; without a report the first-question prompts. -/
def generate_question_mode (max_num_turns : Nat) (messages : List String)
    (report : Option String) : QMode :=
  if reportTruthy report then
    if remaining_questions max_num_turns messages.length = 0 then
      QMode.finalQuestion
    else QMode.followUp
  else QMode.firstQuestion

/- ## Interrogator: report refinement (graph/nodes/refine_answer.py) -/

/-- What refine_answer passes to the language model, beyond the per-session
constants userQuery and userContext: the formatted conversation slice and the
existing report when one is present. -/
structure RefineInput where
  conversation : List String
  existingReport : Option String
deriving DecidableEq, Repr

/-- Embedding of the input selection of refine_answer from
Interrogator/graph/nodes/refine_answer.py: with a truthy report the
conversation is messages[-2:], the latest question and answer only, together
with the existing report; otherwise the full transcript with no report. -/
def refine_answer_input (messages : List String) (report : Option String) :
    RefineInput :=
  if reportTruthy report then
    { conversation := messages.drop (messages.length - 2), existingReport := report }
  else
    { conversation := messages, existingReport := none }

/- ## Interrogator: the interrogation loop (graph/builder.py) -/

/-- The external collaborators of one interrogation session: the question
generator (given the transcript, the report, and the selected prompt mode),
the Researcher-backed answer synthesis, the two report writers, and the
cosine-similarity model.  All are unconstrained oracles. -/
structure Oracles where
  genQuestion : List String → Option String → QMode → String
  genAnswer : List String → String
  writeFirstReport : List String → String
  refineReport : List String → String → String
  cosSim : String → String → ℚ

/-- The mutable interrogation state the verified nodes touch: the message
contents and the report. -/
structure IState where
  messages : List String
  report : Option String
deriving DecidableEq, Repr

/-- Embedding of the generate_question node effect: the generated question,
produced under the selected prompt mode, is appended to the messages. -/
def generate_question_step (max_num_turns : Nat) (o : Oracles) (s : IState) :
    IState :=
  { s with
    messages := s.messages ++
      [o.genQuestion s.messages s.report
        (generate_question_mode max_num_turns s.messages s.report)] }

/-- Embedding of the get_answer node effect: the Researcher response to the
last question is appended to the messages. -/
def get_answer_step (o : Oracles) (s : IState) : IState :=
  { s with messages := s.messages ++ [o.genAnswer s.messages] }

/-- Embedding of the refine_answer node effect: the report is rewritten from
exactly the inputs selected by refine_answer_input. -/
def refine_answer_step (o : Oracles) (s : IState) : IState :=
  match refine_answer_input s.messages s.report with
  | { conversation := conv, existingReport := some r } =>
      { s with report := some (o.refineReport conv r) }
  | { conversation := conv, existingReport := none } =>
      { s with report := some (o.writeFirstReport conv) }

/-- Position of control between graph nodes: about to run generate_question,
about to evaluate the conditional edge route_interrogation, or routed to
save_interrogation (after which only save_interrogation and write_report run
and the messages no longer change). -/
inductive Phase where
  | atGenerate
  | atRouter
  | finished
deriving DecidableEq, Repr

/-- Reachable configurations of the compiled interrogation graph of
Interrogator/graph/builder.py, indexed by the number of get_answer
transitions taken.  The flow is the one wired by GraphBuilder.build: START to
generate_question; the conditional edge routes either to get_answer (then
refine_answer, then generate_question again) or to save_interrogation. -/
inductive Reaches (max_num_turns : Nat) (o : Oracles) :
    IState → Phase → Nat → Prop where
  | init : Reaches max_num_turns o { messages := [], report := none } Phase.atGenerate 0
  | generate {s : IState} {answers : Nat}
      (h : Reaches max_num_turns o s Phase.atGenerate answers) :
      Reaches max_num_turns o (generate_question_step max_num_turns o s)
        Phase.atRouter answers
  | answer {s : IState} {answers : Nat}
      (h : Reaches max_num_turns o s Phase.atRouter answers)
      (hroute : route_interrogation o.cosSim s.messages max_num_turns =
        some "get_answer") :
      Reaches max_num_turns o (refine_answer_step o (get_answer_step o s))
        Phase.atGenerate (answers + 1)
  | finalize {s : IState} {answers : Nat}
      (h : Reaches max_num_turns o s Phase.atRouter answers)
      (hroute : route_interrogation o.cosSim s.messages max_num_turns =
        some "save_interrogation") :
      Reaches max_num_turns o s Phase.finished answers

/-- The rerank score recorded in a document metadata, defaulting to zero
when absent; every document the reranking node returns carries one. -/
def rerankScoreD (d : Doc) : ℚ :=
  d.reranker_score.getD 0

/- ## Claim theorems -/

/-- C2: whenever the most recently generated question contains the canonical
phrase as a literal substring, or its cosine similarity to the phrase meets
the default threshold 0.9, the router returns save_interrogation even though
the answered-turn count is still below the turn budget. -/
theorem route_early_termination (cosSim : String → String → ℚ)
    (messages : List String) (max_num_turns : Nat) (q : String)
    (hlast : messages.getLast? = some q)
    (hturns : messages.length / 2 < max_num_turns)
    (hstop : pyIn canonicalPhrase q = true ∨
      (9 : ℚ) / 10 ≤ cosSim q canonicalPhrase) :
    route_interrogation cosSim messages max_num_turns =
      some "save_interrogation" := by
  unfold route_interrogation
  rw [if_neg (by omega), hlast]
  rcases hstop with h | h
  · simp [h]
  · simp [similarity_check, h]

/-- Witness for C2: a session with budget 2 and a single question message
whose similarity the model scores at 1 routes to save_interrogation. -/
theorem route_early_termination_witness :
    route_interrogation (fun _ _ => 1) ["is clause 3 valid"] 2 =
      some "save_interrogation" :=
  route_early_termination (fun _ _ => 1) ["is clause 3 valid"] 2
    "is clause 3 valid" (by rfl) (by decide) (Or.inr (by norm_num))

/-- C8: once a (non-empty) report exists, the refinement step is supplied
only the existing report and the last two messages, the latest question and
answer; hence the refinement input is the same for any two transcripts
agreeing on their last two messages, independent of the turn count; and on
the first turn, with no report yet, the full transcript is supplied. -/
theorem refine_input_only_latest_turn (messages m1 m2 : List String)
    (r : String) (hr : r.isEmpty = false)
    (hsame : m1.drop (m1.length - 2) = m2.drop (m2.length - 2)) :
    refine_answer_input messages (some r) =
      { conversation := messages.drop (messages.length - 2)
        existingReport := some r } ∧
    refine_answer_input m1 (some r) = refine_answer_input m2 (some r) ∧
    refine_answer_input messages none =
      { conversation := messages, existingReport := none } := by
  refine ⟨?_, ?_, ?_⟩
  · simp [refine_answer_input, reportTruthy, hr]
  · simp [refine_answer_input, reportTruthy, hr, hsame]
  · simp [refine_answer_input, reportTruthy]

/-- Witness for C8: a four-message transcript and a three-message transcript
sharing their last question-answer pair give the refinement step identical
inputs. -/
theorem refine_input_only_latest_turn_witness :
    refine_answer_input ["q1", "a1", "q2", "a2"] (some "draft") =
      { conversation := ["q2", "a2"], existingReport := some "draft" } ∧
    refine_answer_input ["q2", "a2"] (some "draft") =
      refine_answer_input ["q0", "q2", "a2"] (some "draft") ∧
    refine_answer_input ["q1", "a1", "q2", "a2"] none =
      { conversation := ["q1", "a1", "q2", "a2"], existingReport := none } :=
  refine_input_only_latest_turn ["q1", "a1", "q2", "a2"] ["q2", "a2"]
    ["q0", "q2", "a2"] "draft" (by decide) (by decide)

/-- On a list sorted in descending key order, keeping the elements with key
strictly above a threshold commutes with truncation: the survivors form a
prefix, so truncate-then-filter equals filter-then-truncate. -/
theorem take_filter_comm_of_sorted (key : α → ℚ) (t : ℚ) (l : List α)
    (hs : List.Pairwise (fun a b => key b ≤ key a) l) :
    ∀ k : Nat, (l.take k).filter (fun x => decide (t < key x)) =
      (l.filter (fun x => decide (t < key x))).take k := by
  induction l with
  | nil => intro k; simp
  | cons x xs ih =>
      intro k
      rcases List.pairwise_cons.mp hs with ⟨hx, hxs⟩
      cases k with
      | zero => simp
      | succ k =>
          by_cases hxt : t < key x
          · simp only [List.take_succ_cons, List.filter_cons,
              decide_eq_true hxt, List.take_succ_cons]
            simpa using ih hxs k
          · have hall : ∀ y ∈ xs, ¬ t < key y := by
              intro y hy
              exact fun hty => hxt (lt_of_lt_of_le hty (hx y hy))
            have h1 : (x :: xs).filter (fun x => decide (t < key x)) = [] := by
              refine List.filter_eq_nil_iff.mpr ?_
              intro y hy
              rcases List.mem_cons.mp hy with rfl | hy
              · simpa using hxt
              · simpa using hall y hy
            have h2 : ((x :: xs).take (k + 1)).filter
                (fun x => decide (t < key x)) = [] := by
              refine List.filter_eq_nil_iff.mpr ?_
              intro y hy
              have hy := List.take_subset (k + 1) (x :: xs) hy
              rcases List.mem_cons.mp hy with rfl | hy
              · simpa using hxt
              · simpa using hall y hy
            rw [h1, h2, List.take_nil]

/-- C5 amended: whenever the effective k of retrieve_with_scores is at least
one, the BM25 ranking agrees with filter-then-truncate: the returned list is
exactly the descending ranking restricted to scores strictly above the
similarity threshold, truncated to at most k entries.  (When the configured
top k is zero and no override is passed, the Python slice [-0:] keeps the
whole corpus instead, which is the counterexample below.) -/
theorem bm25_filter_before_truncate (documents : List Doc) (scores : List ℚ)
    (kArg : Option Nat) (top_k : Nat) (similarity_threshold : ℚ)
    (hk : bm25EffectiveK kArg top_k ≠ 0) :
    retrieve_with_scores documents scores kArg top_k similarity_threshold =
      specFilterThenTruncate documents scores (bm25EffectiveK kArg top_k)
        similarity_threshold := by
  unfold retrieve_with_scores specFilterThenTruncate
  simp only [if_neg hk]
  exact take_filter_comm_of_sorted (fun p => p.2) similarity_threshold
    (sortDesc (fun p => p.2) (documents.zip scores))
    (sortDesc_sorted (fun p => p.2) (documents.zip scores))
    (bm25EffectiveK kArg top_k)

/-- Witness for C5: with top k three, one of two documents scoring above the
threshold survives filtering and the orders of operations agree. -/
theorem bm25_filter_before_truncate_witness :
    retrieve_with_scores
        [{ page_content := "alpha", reranker_score := none },
         { page_content := "beta", reranker_score := none }]
        [3 / 4, 1 / 4] none 3 (1 / 2) =
      specFilterThenTruncate
        [{ page_content := "alpha", reranker_score := none },
         { page_content := "beta", reranker_score := none }]
        [3 / 4, 1 / 4] (bm25EffectiveK none 3) (1 / 2) :=
  bm25_filter_before_truncate _ _ none 3 (1 / 2) (by decide)

/-- C5 counterexample: with the BM25 top k configured as zero and no
override, the implementation returns every document scoring above the
threshold (the Python slice [-0:] selects the whole corpus), while
filter-then-truncate to at most zero entries returns nothing. -/
theorem bm25_zero_top_k_divergence :
    retrieve_with_scores [{ page_content := "doc", reranker_score := none }]
        [1] none 0 0 =
      [({ page_content := "doc", reranker_score := none }, 1)] ∧
    specFilterThenTruncate [{ page_content := "doc", reranker_score := none }]
        [1] (bm25EffectiveK none 0) 0 = [] ∧
    retrieve_with_scores [{ page_content := "doc", reranker_score := none }]
        [1] none 0 0 ≠
      specFilterThenTruncate
        [{ page_content := "doc", reranker_score := none }] [1]
        (bm25EffectiveK none 0) 0 := by
  refine ⟨by decide, by decide, by decide⟩

/-- Branch evaluation of rerank: with the reranker enabled and at least one
document carrying the original-span marker, the node returns the scored,
descending-sorted, threshold-filtered, score-annotated survivors truncated
to top k. -/
theorem rerank_enabled_eq (top_k : Nat) (similarity_threshold : Option ℚ)
    (scorer : String → String → ℚ) (query : String) (docs : List Doc)
    (hf : (docs.filter
      (fun doc => pyIn ORIGINAL_SPAN_MARKER doc.page_content)).isEmpty = false) :
    rerank top_k similarity_threshold true scorer query docs =
      (((sortDesc (fun p => p.2)
          ((docs.filter (fun doc => pyIn ORIGINAL_SPAN_MARKER doc.page_content)).map
            (fun doc => (doc, scorer query doc.page_content)))).filter
          (fun p => rerankKeep similarity_threshold p.2)).map
        (fun p => { p.1 with reranker_score := some p.2 })).take top_k := by
  have h0 : docs.isEmpty = false := by
    cases docs with
    | nil => simp at hf
    | cons d ds => rfl
  simp [rerank, h0, hf]

/-- Branch evaluation of rerank: when no candidate carries the original-span
marker (or the candidate set is empty), the enabled reranking node returns
the explicit empty result. -/
theorem rerank_enabled_empty (top_k : Nat) (similarity_threshold : Option ℚ)
    (scorer : String → String → ℚ) (query : String) (docs : List Doc)
    (hf : (docs.filter
      (fun doc => pyIn ORIGINAL_SPAN_MARKER doc.page_content)).isEmpty = true) :
    rerank top_k similarity_threshold true scorer query docs = [] := by
  cases h0 : docs.isEmpty
  · simp [rerank, h0, hf]
  · simp [rerank, h0]

/-- C3: with reranking enabled, a document whose page content lacks the
original-span marker never appears in the reranked output; and when the
marker filter removes every candidate, the node returns the explicit empty
result before any scoring. -/
theorem rerank_only_original_spans (top_k : Nat)
    (similarity_threshold : Option ℚ) (scorer : String → String → ℚ)
    (query : String) (docs : List Doc) :
    (∀ d ∈ rerank top_k similarity_threshold true scorer query docs,
      pyIn ORIGINAL_SPAN_MARKER d.page_content = true) ∧
    ((∀ d ∈ docs, pyIn ORIGINAL_SPAN_MARKER d.page_content = false) →
      rerank top_k similarity_threshold true scorer query docs = []) := by
  constructor
  · intro d hd
    cases hf : (docs.filter
        (fun doc => pyIn ORIGINAL_SPAN_MARKER doc.page_content)).isEmpty
    · rw [rerank_enabled_eq top_k similarity_threshold scorer query docs hf] at hd
      have hd1 := List.take_subset _ _ hd
      obtain ⟨p, hp, rfl⟩ := List.mem_map.mp hd1
      have hp1 := List.mem_of_mem_filter hp
      have hp2 := mem_sortDesc.mp hp1
      obtain ⟨doc, hdoc, rfl⟩ := List.mem_map.mp hp2
      exact (List.mem_filter.mp hdoc).2
    · rw [rerank_enabled_empty top_k similarity_threshold scorer query docs hf] at hd
      exact absurd hd (List.not_mem_nil d)
  · intro hall
    have hfil : docs.filter
        (fun doc => pyIn ORIGINAL_SPAN_MARKER doc.page_content) = [] :=
      List.filter_eq_nil_iff.mpr (fun d hd => by simp [hall d hd])
    exact rerank_enabled_empty top_k similarity_threshold scorer query docs
      (by rw [hfil]; rfl)

/-- Witness for C3: a lone synthetic context wrapper without the marker is
excluded and the enabled reranking stage returns the explicit empty result. -/
theorem rerank_only_original_spans_witness :
    rerank 5 (some (1 / 2)) true (fun _ _ => 1) "query"
      [{ page_content := "with ancestors wrapper", reranker_score := none }] =
      [] :=
  (rerank_only_original_spans 5 (some (1 / 2)) (fun _ _ => 1) "query"
    [{ page_content := "with ancestors wrapper", reranker_score := none }]).2
    (by decide)

/-- C4: with reranking enabled, the returned list has at most top k entries,
is sorted in descending recorded rerank score, and, when the similarity
threshold is set (non-zero), contains no document scoring below it. -/
theorem rerank_output_bounds (top_k : Nat) (similarity_threshold : Option ℚ)
    (scorer : String → String → ℚ) (query : String) (docs : List Doc) :
    (rerank top_k similarity_threshold true scorer query docs).length ≤ top_k ∧
    List.Pairwise (fun a b => rerankScoreD b ≤ rerankScoreD a)
      (rerank top_k similarity_threshold true scorer query docs) ∧
    (∀ t : ℚ, similarity_threshold = some t → t ≠ 0 →
      ∀ d ∈ rerank top_k similarity_threshold true scorer query docs,
        t ≤ rerankScoreD d) := by
  cases hf : (docs.filter
      (fun doc => pyIn ORIGINAL_SPAN_MARKER doc.page_content)).isEmpty
  · rw [rerank_enabled_eq top_k similarity_threshold scorer query docs hf]
    refine ⟨?_, ?_, ?_⟩
    · exact List.length_take_le top_k _
    · refine List.Pairwise.sublist (List.take_sublist top_k _) ?_
      refine List.pairwise_map.mpr ?_
      refine List.Pairwise.sublist (List.filter_sublist _) ?_
      exact sortDesc_sorted (fun p : Doc × ℚ => p.2) _
    · intro t ht hne d hd
      have hd1 := List.take_subset _ _ hd
      obtain ⟨p, hp, rfl⟩ := List.mem_map.mp hd1
      have hkeep := (List.mem_filter.mp hp).2
      rw [ht] at hkeep
      simp only [rerankKeep, thresholdTruthy, Option.getD_some, decide_eq_true hne,
        Bool.true_and, Bool.not_eq_eq_eq_not, Bool.not_true,
        decide_eq_false_iff_not, not_lt] at hkeep
      simpa [rerankScoreD] using hkeep
  · rw [rerank_enabled_empty top_k similarity_threshold scorer query docs hf]
    simp

/-- Witness for C4: with threshold two and a model score of three on a
marked document, the returned document is certified to score at least the
threshold. -/
theorem rerank_output_bounds_witness :
    (2 : ℚ) ≤ rerankScoreD
      { page_content := ORIGINAL_SPAN_MARKER, reranker_score := some 3 } :=
  (rerank_output_bounds 5 (some 2) (fun _ _ => 3) "query"
      [{ page_content := ORIGINAL_SPAN_MARKER, reranker_score := none }]).2.2
    2 rfl (by norm_num)
    { page_content := ORIGINAL_SPAN_MARKER, reranker_score := some 3 }
    (by decide)

/-- C10: when the reranker similarity threshold is left unset or configured
as zero, the truthiness guard disables score filtering entirely: the enabled
reranking node returns every scored marker-bearing document up to top k, in
descending score order, regardless of how low the scores are. -/
theorem rerank_zero_threshold_no_filter (top_k : Nat)
    (scorer : String → String → ℚ) (query : String) (docs : List Doc)
    (similarity_threshold : Option ℚ)
    (hth : similarity_threshold = none ∨ similarity_threshold = some 0) :
    rerank top_k similarity_threshold true scorer query docs =
      ((sortDesc (fun p => p.2)
        ((docs.filter (fun doc => pyIn ORIGINAL_SPAN_MARKER doc.page_content)).map
          (fun doc => (doc, scorer query doc.page_content)))).map
        (fun p => { p.1 with reranker_score := some p.2 })).take top_k := by
  have hkeep : ∀ s : ℚ, rerankKeep similarity_threshold s = true := by
    rcases hth with rfl | rfl <;> intro s <;> simp [rerankKeep, thresholdTruthy]
  cases hf : (docs.filter
      (fun doc => pyIn ORIGINAL_SPAN_MARKER doc.page_content)).isEmpty
  · rw [rerank_enabled_eq top_k similarity_threshold scorer query docs hf]
    rw [List.filter_eq_self.mpr (fun p _ => hkeep p.2)]
  · rw [rerank_enabled_empty top_k similarity_threshold scorer query docs hf]
    rw [List.isEmpty_iff.mp hf]
    simp [sortDesc]

/-- Witness for C10: with the threshold configured as zero, a document the
model scores at minus five is still returned. -/
theorem rerank_zero_threshold_no_filter_witness :
    rerank 5 (some 0) true (fun _ _ => -5) "query"
      [{ page_content := ORIGINAL_SPAN_MARKER, reranker_score := none }] =
      [{ page_content := ORIGINAL_SPAN_MARKER, reranker_score := some (-5) }] := by
  rw [rerank_zero_threshold_no_filter 5 (fun _ _ => -5) "query"
    [{ page_content := ORIGINAL_SPAN_MARKER, reranker_score := none }]
    (some 0) (Or.inr rfl)]
  decide

/-- The refine_answer node rewrites only the report; the transcript is
untouched. -/
theorem refine_answer_step_messages (o : Oracles) (s : IState) :
    (refine_answer_step o s).messages = s.messages := by
  unfold refine_answer_step
  split <;> rfl

/-- When the router decides to answer, the budget guard has not fired: the
answered-turn count is still below max_num_turns. -/
theorem route_get_answer_budget {cosSim : String → String → ℚ}
    {messages : List String} {max_num_turns : Nat}
    (h : route_interrogation cosSim messages max_num_turns =
      some "get_answer") :
    messages.length / 2 < max_num_turns := by
  by_contra hle
  push_neg at hle
  unfold route_interrogation at h
  rw [if_pos hle] at h
  exact (by decide : ¬ (some "save_interrogation" = some "get_answer")) h

/-- Structural invariant of reachable interrogation configurations: the
answer count never exceeds the budget, and the transcript holds two messages
per answered turn plus the pending question after generate_question. -/
theorem reaches_invariant {max_num_turns : Nat} {o : Oracles} {s : IState}
    {ph : Phase} {answers : Nat}
    (h : Reaches max_num_turns o s ph answers) :
    answers ≤ max_num_turns ∧
      s.messages.length =
        2 * answers + (if ph = Phase.atGenerate then 0 else 1) := by
  induction h with
  | init => simp
  | @generate t k h ih =>
      rcases ih with ⟨hk, hlen⟩
      have hlen0 : t.messages.length = 2 * k := by simpa using hlen
      refine ⟨hk, ?_⟩
      simp [generate_question_step, hlen0]
  | @answer t k h hroute ih =>
      rcases ih with ⟨hk, hlen⟩
      have hlen1 : t.messages.length = 2 * k + 1 := by simpa using hlen
      have hlt := route_get_answer_budget hroute
      rw [hlen1] at hlt
      refine ⟨by omega, ?_⟩
      rw [refine_answer_step_messages]
      simp [get_answer_step, hlen1]
      omega
  | @finalize t k h hroute ih =>
      rcases ih with ⟨hk, hlen⟩
      refine ⟨hk, ?_⟩
      simpa using hlen

/-- C1: for every turn budget of at least one and every behaviour of the
question generator, the answer synthesizer, the report writers, and the
similarity model, a reachable configuration has performed at most budget-many
get_answer transitions and its answered-turn count, half the message count,
never exceeds the budget. -/
theorem interrogation_respects_turn_budget (max_num_turns : Nat)
    (o : Oracles) (s : IState) (ph : Phase) (answers : Nat)
    (_hN : 1 ≤ max_num_turns)
    (h : Reaches max_num_turns o s ph answers) :
    answers ≤ max_num_turns ∧
      s.messages.length / 2 ≤ max_num_turns := by
  obtain ⟨hk, hlen⟩ := reaches_invariant h
  refine ⟨hk, ?_⟩
  split at hlen <;> omega

/-- Witness for C1: the initial configuration of a budget-one session
satisfies the bound. -/
theorem interrogation_respects_turn_budget_witness :
    (0 : Nat) ≤ 1 ∧
      ({ messages := [], report := none } : IState).messages.length / 2 ≤ 1 :=
  interrogation_respects_turn_budget 1
    { genQuestion := fun _ _ _ => "q"
      genAnswer := fun _ => "a"
      writeFirstReport := fun _ => "r"
      refineReport := fun _ _ => "r"
      cosSim := fun _ _ => 0 }
    { messages := [], report := none } Phase.atGenerate 0 (by decide)
    Reaches.init

/-- C9: whenever a (truthy) report exists and the remaining-question count is
zero, generate_question selects the final wrap-up prompt mode; and in a
budget-one session whose first question does not trip the termination
detector, exactly one get_answer cycle runs, the second generate_question
entry sees a report with zero remaining questions (hence the wrap-up mode,
for a non-empty report text), and the router then finalizes. -/
theorem final_question_mode (max_num_turns : Nat) (messages : List String)
    (report : Option String) (o : Oracles)
    (hrep : reportTruthy report = true)
    (hrem : remaining_questions max_num_turns messages.length = 0)
    (hq : pyIn canonicalPhrase (o.genQuestion [] none QMode.firstQuestion) = false)
    (hcos : o.cosSim (o.genQuestion [] none QMode.firstQuestion) canonicalPhrase
      < 9 / 10) :
    generate_question_mode max_num_turns messages report = QMode.finalQuestion ∧
    Reaches 1 o
      { messages := [o.genQuestion [] none QMode.firstQuestion,
          o.genAnswer [o.genQuestion [] none QMode.firstQuestion]]
        report := some (o.writeFirstReport
          [o.genQuestion [] none QMode.firstQuestion,
           o.genAnswer [o.genQuestion [] none QMode.firstQuestion]]) }
      Phase.atGenerate 1 ∧
    remaining_questions 1 2 = 0 ∧
    ((o.writeFirstReport
        [o.genQuestion [] none QMode.firstQuestion,
         o.genAnswer [o.genQuestion [] none QMode.firstQuestion]]).isEmpty =
          false →
      generate_question_mode 1
        [o.genQuestion [] none QMode.firstQuestion,
         o.genAnswer [o.genQuestion [] none QMode.firstQuestion]]
        (some (o.writeFirstReport
          [o.genQuestion [] none QMode.firstQuestion,
           o.genAnswer [o.genQuestion [] none QMode.firstQuestion]])) =
        QMode.finalQuestion) ∧
    Reaches 1 o
      (generate_question_step 1 o
        { messages := [o.genQuestion [] none QMode.firstQuestion,
            o.genAnswer [o.genQuestion [] none QMode.firstQuestion]]
          report := some (o.writeFirstReport
            [o.genQuestion [] none QMode.firstQuestion,
             o.genAnswer [o.genQuestion [] none QMode.firstQuestion]]) })
      Phase.finished 1 := by
  have hrem2 : remaining_questions 1 2 = 0 := by
    norm_num [remaining_questions, pyInt]
  have h1 : Reaches 1 o
      { messages := [o.genQuestion [] none QMode.firstQuestion], report := none }
      Phase.atRouter 0 := Reaches.generate Reaches.init
  have hroute1 : route_interrogation o.cosSim
      [o.genQuestion [] none QMode.firstQuestion] 1 = some "get_answer" := by
    have hsim : similarity_check o.cosSim
        (o.genQuestion [] none QMode.firstQuestion) canonicalPhrase (9 / 10) =
        false := by
      simp only [similarity_check, decide_eq_false_iff_not, not_le]
      exact hcos
    unfold route_interrogation
    rw [if_neg (by simp)]
    simp [hq, hsim]
  have h2 : Reaches 1 o
      { messages := [o.genQuestion [] none QMode.firstQuestion,
          o.genAnswer [o.genQuestion [] none QMode.firstQuestion]]
        report := some (o.writeFirstReport
          [o.genQuestion [] none QMode.firstQuestion,
           o.genAnswer [o.genQuestion [] none QMode.firstQuestion]]) }
      Phase.atGenerate 1 := Reaches.answer h1 hroute1
  have hroute2 : route_interrogation o.cosSim
      (generate_question_step 1 o
        { messages := [o.genQuestion [] none QMode.firstQuestion,
            o.genAnswer [o.genQuestion [] none QMode.firstQuestion]]
          report := some (o.writeFirstReport
            [o.genQuestion [] none QMode.firstQuestion,
             o.genAnswer [o.genQuestion [] none QMode.firstQuestion]]) }).messages
      1 = some "save_interrogation" := by
    unfold route_interrogation
    rw [if_pos (by simp [generate_question_step])]
  refine ⟨?_, h2, hrem2, ?_, ?_⟩
  · simp [generate_question_mode, hrep, hrem]
  · intro hr1
    simp [generate_question_mode, reportTruthy, hr1, hrem2]
  · exact Reaches.finalize (Reaches.generate h2) hroute2

/-- Witness for C9: with a two-message transcript, a non-empty report, and
budget one, the wrap-up prompt mode is selected. -/
theorem final_question_mode_witness :
    generate_question_mode 1 ["q", "a"] (some "rep") = QMode.finalQuestion :=
  (final_question_mode 1 ["q", "a"] (some "rep")
    { genQuestion := fun _ _ _ => "why"
      genAnswer := fun _ => "ans"
      writeFirstReport := fun _ => "rep"
      refineReport := fun _ _ => "rep"
      cosSim := fun _ _ => 0 }
    (by decide) (by norm_num [remaining_questions, pyInt]) (by decide)
    (by norm_num)).1

/-- A content absent from a list contributes nothing to its fused score. -/
theorem rrfContribFrom_eq_zero (w : ℚ) (c : String) :
    ∀ (r : Nat) (l : List Doc), (∀ d ∈ l, d.page_content ≠ c) →
      rrfContribFrom w r c l = 0 := by
  intro r l
  induction l generalizing r with
  | nil => intro _; rfl
  | cons d ds ih =>
      intro h
      simp only [rrfContribFrom, if_neg (h d (List.mem_cons_self d ds)), zero_add]
      exact ih (r + 1) (fun x hx => h x (List.mem_cons_of_mem d hx))

/-- The head of a duplicate-free list receives exactly its own reciprocal-rank
contribution. -/
theorem rrfContribFrom_head (w : ℚ) (r : Nat) (d : Doc) (ds : List Doc)
    (h : ∀ x ∈ ds, x.page_content ≠ d.page_content) :
    rrfContribFrom w r d.page_content (d :: ds) = w / ((r : ℚ) + 60) := by
  have hz := rrfContribFrom_eq_zero w d.page_content (r + 1) ds h
  simp [rrfContribFrom, hz]

/-- Reciprocal-rank contributions at a later starting rank are no larger. -/
theorem rrf_rank_mono (w : ℚ) (hw : 0 ≤ w) (r : Nat) :
    w / ((r : ℚ) + 1 + 60) ≤ w / ((r : ℚ) + 60) := by
  apply div_le_div_of_nonneg_left hw
  · positivity
  · linarith

/-- Over a duplicate-free corpus, any single content contributes at most the
reciprocal-rank share of the first position. -/
theorem rrfContribFrom_le (w : ℚ) (hw : 0 ≤ w) (c : String) :
    ∀ (r : Nat) (l : List Doc), (l.map (fun d => d.page_content)).Nodup →
      rrfContribFrom w r c l ≤ w / ((r : ℚ) + 60) := by
  intro r l
  induction l generalizing r with
  | nil =>
      intro _
      simp only [rrfContribFrom]
      exact div_nonneg hw (by positivity)
  | cons d ds ih =>
      intro hnd
      rw [List.map_cons] at hnd
      rcases List.nodup_cons.mp hnd with ⟨hd, hnds⟩
      by_cases hc : d.page_content = c
      · have hzero : rrfContribFrom w (r + 1) c ds = 0 := by
          refine rrfContribFrom_eq_zero w c (r + 1) ds ?_
          intro x hx he
          rw [← hc] at he
          exact hd (he ▸ List.mem_map_of_mem _ hx)
        simp only [rrfContribFrom, if_pos hc, hzero, add_zero]
        exact le_refl _
      · simp only [rrfContribFrom, if_neg hc, zero_add]
        refine le_trans (ih (r + 1) hnds) ?_
        have hcast : (((r : Nat) + 1 : Nat) : ℚ) = (r : ℚ) + 1 := by push_cast; ring
        rw [hcast]
        exact rrf_rank_mono w hw r

/-- Over a duplicate-free list, the reciprocal-rank fused scores decrease
along the list order. -/
theorem rrf_self_pairwise (w : ℚ) (hw : 0 ≤ w) :
    ∀ (r : Nat) (l : List Doc), (l.map (fun d => d.page_content)).Nodup →
      List.Pairwise (fun a b =>
        rrfContribFrom w r b.page_content l ≤
          rrfContribFrom w r a.page_content l) l := by
  intro r l
  induction l generalizing r with
  | nil => intro _; exact List.Pairwise.nil
  | cons d ds ih =>
      intro hnd
      rw [List.map_cons] at hnd
      rcases List.nodup_cons.mp hnd with ⟨hd, hnds⟩
      have hds : ∀ x ∈ ds, x.page_content ≠ d.page_content := by
        intro x hx he
        exact hd (he ▸ List.mem_map_of_mem _ hx)
      refine List.pairwise_cons.mpr ⟨?_, ?_⟩
      · intro b hb
        have htail : rrfContribFrom w r b.page_content (d :: ds) =
            rrfContribFrom w (r + 1) b.page_content ds := by
          simp only [rrfContribFrom, if_neg (Ne.symm (hds b hb)), zero_add]
        rw [rrfContribFrom_head w r d ds hds, htail]
        refine le_trans (rrfContribFrom_le w hw b.page_content (r + 1) ds hnds) ?_
        have hcast : (((r : Nat) + 1 : Nat) : ℚ) = (r : ℚ) + 1 := by push_cast; ring
        rw [hcast]
        exact rrf_rank_mono w hw r
      · have hpw := ih (r + 1) hnds
        refine List.Pairwise.imp_of_mem ?_ hpw
        intro a b ha hb hle
        have hta : rrfContribFrom w r a.page_content (d :: ds) =
            rrfContribFrom w (r + 1) a.page_content ds := by
          simp only [rrfContribFrom, if_neg (Ne.symm (hds a ha)), zero_add]
        have htb : rrfContribFrom w r b.page_content (d :: ds) =
            rrfContribFrom w (r + 1) b.page_content ds := by
          simp only [rrfContribFrom, if_neg (Ne.symm (hds b hb)), zero_add]
        rw [hta, htb]
        exact hle

/-- Deduplication keeps a list whose contents are pairwise distinct and
disjoint from the seen set unchanged. -/
theorem uniqueByContent_eq_self :
    ∀ (l : List Doc) (seen : List String),
      (l.map (fun d => d.page_content)).Nodup →
      (∀ d ∈ l, d.page_content ∉ seen) →
      uniqueByContent seen l = l := by
  intro l
  induction l with
  | nil => intro _ _ _; rfl
  | cons d ds ih =>
      intro seen hnd hseen
      rw [List.map_cons] at hnd
      rcases List.nodup_cons.mp hnd with ⟨hd, hnds⟩
      simp only [uniqueByContent,
        if_neg (hseen d (List.mem_cons_self d ds))]
      congr 1
      refine ih (d.page_content :: seen) hnds ?_
      intro x hx
      simp only [List.mem_cons, not_or]
      constructor
      · intro he
        exact hd (he ▸ List.mem_map_of_mem _ hx)
      · exact hseen x (List.mem_cons_of_mem d hx)

/-- C7: when the semantic ranker raises (its failure is absorbed into an
empty semantic candidate list), the hybrid retrieval still returns the BM25
ranked list unchanged, provided the lexical list has pairwise-distinct
contents, a non-negative lexical weight, and fits within the hybrid top k;
in particular the retrieval neither fails nor returns an empty result. -/
theorem hybrid_degraded_passthrough (bm25_weight vector_weight : ℚ)
    (top_k : Nat) (bm25_documents : List Doc)
    (vector_similarity_threshold : ℚ) (err : String)
    (hw : 0 ≤ bm25_weight)
    (hnd : (bm25_documents.map (fun d => d.page_content)).Nodup)
    (hlen : bm25_documents.length ≤ top_k) :
    hybrid_retrieve bm25_weight vector_weight top_k bm25_documents
      vector_similarity_threshold (Except.error err) = bm25_documents := by
  have hvec : vectordb_retrieve vector_similarity_threshold
      (Except.error err) = ([] : List Doc) := rfl
  show List.take top_k
      (weightedRankFusion bm25_weight vector_weight bm25_documents
        (vectordb_retrieve vector_similarity_threshold (Except.error err))) =
    bm25_documents
  rw [hvec]
  unfold weightedRankFusion
  rw [List.append_nil]
  rw [uniqueByContent_eq_self bm25_documents [] hnd
    (fun d _ => List.not_mem_nil d.page_content)]
  have hkey : (fun d : Doc =>
      rrfContribFrom bm25_weight 1 d.page_content bm25_documents +
        rrfContribFrom vector_weight 1 d.page_content []) =
      (fun d : Doc =>
        rrfContribFrom bm25_weight 1 d.page_content bm25_documents) := by
    funext d
    simp [rrfContribFrom]
  rw [hkey]
  rw [sortDesc_eq_self _ _ (rrf_self_pairwise bm25_weight hw 1
    bm25_documents hnd)]
  exact List.take_of_length_le hlen

/-- Witness for C7: two distinct lexical candidates survive a semantic-side
exception untouched. -/
theorem hybrid_degraded_passthrough_witness :
    hybrid_retrieve 1 1 5
      [{ page_content := "alpha", reranker_score := none },
       { page_content := "beta", reranker_score := none }]
      0 (Except.error "backend down") =
      [{ page_content := "alpha", reranker_score := none },
       { page_content := "beta", reranker_score := none }] :=
  hybrid_degraded_passthrough 1 1 5
    [{ page_content := "alpha", reranker_score := none },
     { page_content := "beta", reranker_score := none }]
    0 "backend down" (by norm_num) (by decide) (by decide)
